import Mathlib

/-!
Verification development for the physiotherapy booking platform.

The repository consists of a Prisma schema (`schema.prisma`, embedded below as
the data model), Next.js page components, and server actions for
authentication (`signup/page.jsx`: `login`, `getCurrentUser`, ...).

The scheduling core (Schedule Model, Availability Resolver, Booking Commit
Engine, Lifecycle Coordinator) is declared in the schema and described in the
design document but its executable code is not part of the repository; those
operations are modelled here from the design document, while the data model is
translated from `schema.prisma` and the authentication functions from
`signup/page.jsx`.

Times of day (`"HH:mm"` `VarChar(5)` columns in the schema) are embedded as
minutes since midnight; calendar dates as day indices (`Nat`), with
day-of-week `date % 7` matching the schema comment `0 = Monday, 6 = Sunday`.
-/

namespace Physio

/-! ## Definitions -/

/-- Half-open minute-of-day interval `[start, stop)`.  This embeds the
`start_time`/`end_time` column pairs of `availability_templates` and
`specific_availability`, and the `[appointment_time, appointment_time +
duration_minutes)` span of a booking. -/
structure Ival where
  start : Nat
  stop : Nat
deriving DecidableEq, Repr

/-- An interval is well-formed when it is nonempty (`start < end`, the schema
invariant on availability rows). -/
def Ival.wf (a : Ival) : Bool := decide (a.start < a.stop)

/-- Two half-open intervals intersect in at least one minute. -/
def Ival.overlaps (a b : Ival) : Bool :=
  decide (a.start < b.stop) && decide (b.start < a.stop)

/-- Minute `m` lies inside the half-open interval `a`. -/
def Ival.containsMin (a : Ival) (m : Nat) : Bool :=
  decide (a.start ≤ m) && decide (m < a.stop)

/-- `x.within w`: every minute of `x` lies in `w`. -/
def Ival.within (x w : Ival) : Bool :=
  decide (w.start ≤ x.start) && decide (x.stop ≤ w.stop)

/-- Modelled from the spec: subtracting one blocking interval `b` from one
availability window `w`, "clipping or splitting the recurring interval as
needed"; "an override interval only partially overlapping a recurring
interval splits it into up to two remaining sub-intervals". -/
def subtractOne (w b : Ival) : List Ival :=
  if b.stop ≤ w.start ∨ w.stop ≤ b.start then [w]
  else
    (if w.start < b.start then [⟨w.start, b.start⟩] else []) ++
      (if b.stop < w.stop then [⟨b.stop, w.stop⟩] else [])

/-- Modelled from the spec: subtracting every interval of `bs` from every
window of `ws` (the subtraction step shared by `windowsForDate` and the
Availability Resolver). -/
def subtractMany : List Ival → List Ival → List Ival
  | ws, [] => ws
  | ws, b :: bs => subtractMany (ws.flatMap (fun w => subtractOne w b)) bs

/-- Insert an interval into a list sorted by ascending start time. -/
def insertIval (a : Ival) : List Ival → List Ival
  | [] => [a]
  | b :: l => if a.start ≤ b.start then a :: b :: l else b :: insertIval a l

/-- Modelled from the spec: "Ties broken by start time ascending" — sort the
intervals by start time. -/
def sortByStart : List Ival → List Ival
  | [] => []
  | a :: l => insertIval a (sortByStart l)

/-- `leStart x y`: interval `x` starts no later than `y`. -/
def leStart (x y : Ival) : Prop := x.start ≤ y.start

/-- `sep x y`: interval `x` ends strictly before `y` starts — the two neither
overlap nor touch. -/
def sep (x y : Ival) : Prop := x.stop < y.start

/-- Modelled from the spec: the merging pass — absorb into the current
interval every following interval that overlaps or touches it, emit it when a
gap appears. -/
def mergeInto (cur : Ival) : List Ival → List Ival
  | [] => [cur]
  | b :: rest =>
    if b.start ≤ cur.stop then mergeInto ⟨cur.start, max cur.stop b.stop⟩ rest
    else cur :: mergeInto b rest

/-- Modelled from the spec: "merge adjacent/overlapping resulting intervals
into a minimal disjoint ordered set" (input sorted by start time). -/
def mergeAdj : List Ival → List Ival
  | [] => []
  | a :: l => mergeInto a l

/-- Modelled from the spec: "tile the remaining free intervals into slots of
`slotDurationMinutes`, discarding any slot shorter than the requested
duration". -/
def tile (w : Ival) (dur : Nat) : List Ival :=
  (List.range ((w.stop - w.start) / dur)).map
    (fun k => ⟨w.start + k * dur, w.start + (k + 1) * dur⟩)

/-! ### Data model (translated from `schema.prisma`)

Columns irrelevant to the verified operations (timestamps, free-text notes,
contact data, geo coordinates) are omitted; monetary `Decimal` amounts are
embedded as `Nat` cents. -/

/-- Booking lifecycle states.  In the schema `booking_statuses` is a lookup
table (`BookingStatus` model, lines 227–237); the design document closes it
into the lifecycle `pending → confirmed → completed` with `pending|confirmed
→ cancelled`. -/
inductive BookingStatus
  | pending
  | confirmed
  | completed
  | cancelled
deriving DecidableEq, Repr

/-- The `payment_status` enum of `schema.prisma` (lines 385–392). -/
inductive PaymentStatus
  | pending
  | completed
  | failed
  | refunded
deriving DecidableEq, Repr

/-- The `availability_templates` model: one weekly-recurring availability
window of a practitioner, `day_of_week` with `0 = Monday, 6 = Sunday`,
`start_time`/`end_time` as minutes of day, optional `clinic_id`. -/
structure AvailabilityTemplate where
  id : Nat
  physiotherapistId : Nat
  dayOfWeek : Nat
  startTime : Nat
  endTime : Nat
  clinicId : Option Nat
  isActive : Bool
deriving DecidableEq, Repr

/-- The `specific_availability` model: a date-specific override with an
`is_available` flag (`false` blocks the practitioner, `true` adds an extra
window) and an optional reason. -/
structure SpecificAvailability where
  id : Nat
  physiotherapistId : Nat
  date : Nat
  startTime : Nat
  endTime : Nat
  clinicId : Option Nat
  isAvailable : Bool
  reason : Option String
deriving DecidableEq, Repr

/-- The `bookings` model (schema lines 239–273): appointment of a patient
with a practitioner at a clinic, spanning `[appointment_time,
appointment_time + duration_minutes)` on `appointment_date`. -/
structure Booking where
  id : Nat
  bookingReference : String
  patientId : Nat
  physiotherapistId : Nat
  clinicId : Nat
  appointmentDate : Nat
  appointmentTime : Nat
  durationMinutes : Nat
  status : BookingStatus
  treatmentTypeId : Option Nat
  totalAmount : Option Nat
  cancellationReason : Option String
deriving DecidableEq, Repr

/-- The `payments` model (schema lines 287–306): belongs to exactly one
booking, with the `payment_status` lifecycle. -/
structure Payment where
  id : Nat
  bookingId : Nat
  paymentMethodId : Nat
  amount : Nat
  status : PaymentStatus
deriving DecidableEq, Repr

/-- The appointment interval of a booking. -/
def bookingIval (b : Booking) : Ival :=
  ⟨b.appointmentTime, b.appointmentTime + b.durationMinutes⟩

/-- A status that claims the slot: the design document's invariant and
conflict checks range over bookings with status in `{pending, confirmed}`. -/
def BookingStatus.claims : BookingStatus → Bool
  | .pending => true
  | .confirmed => true
  | .completed => false
  | .cancelled => false

/-! ### Schedule Model -/

/-- Day-of-week of a day index; the schema comment on `day_of_week` fixes
`0 = Monday, 6 = Sunday`, so day indices are read modulo 7. -/
def dayOfWeek (date : Nat) : Nat := date % 7

/-- Modelled from the spec: `windowsForDate(practitionerId, clinicId, date)`
of the Schedule Model, whose executable code is not in the repository.
"Start from recurring rules matching `date.dayOfWeek` and (clinic match OR
rule has no clinic restriction); apply date-specific overrides — subtract any
`isAvailable=false` override interval (clipping or splitting the recurring
interval as needed) and union in any `isAvailable=true` override interval;
merge adjacent/overlapping resulting intervals into a minimal disjoint
ordered set.  Ties broken by start time ascending."  Rows violating the
`start < end` invariant (which the design document says is enforced by the
Resolver, not the store) are dropped. -/
def windowsForDate (rules : List AvailabilityTemplate)
    (overrides : List SpecificAvailability)
    (practitionerId clinicId date : Nat) : List Ival :=
  let recurring :=
    ((rules.filter (fun r =>
        r.isActive && decide (r.physiotherapistId = practitionerId) &&
          decide (r.dayOfWeek = dayOfWeek date) &&
          (decide (r.clinicId = none) || decide (r.clinicId = some clinicId)))).map
      (fun r => ⟨r.startTime, r.endTime⟩)).filter Ival.wf
  let todays := overrides.filter (fun o =>
    decide (o.physiotherapistId = practitionerId) && decide (o.date = date) &&
      (decide (o.clinicId = none) || decide (o.clinicId = some clinicId)))
  let blocks := (todays.filter (fun o => !o.isAvailable)).map
    (fun o => ⟨o.startTime, o.endTime⟩)
  let adds := ((todays.filter (fun o => o.isAvailable)).map
    (fun o => ⟨o.startTime, o.endTime⟩)).filter Ival.wf
  mergeAdj (sortByStart (subtractMany recurring blocks ++ adds))

/-! ### Persisted state and engine configuration -/

/-- Typed error results of the design document's §7. -/
inductive Err
  | ValidationError
  | InvalidRange
  | InvalidDuration
  | SlotUnavailable
  | SlotConflict
  | InvalidTransition
  | PaymentRequired
  | PractitionerInactive
  | ClinicInactive
  | StoreUnavailable
deriving DecidableEq, Repr

/-- The transactional relational store the engine reads and writes.
`activePractitioners`/`activeClinics` stand for the ids whose
`physiotherapist_profiles.is_available` resp. `clinics.is_active` flag is set
(the entities whose being disabled raises `PractitionerInactive` /
`ClinicInactive`).  `nextId` models the `@default(autoincrement())` primary
key counter of `bookings`. -/
structure Store where
  rules : List AvailabilityTemplate
  overrides : List SpecificAvailability
  bookings : List Booking
  payments : List Payment
  activePractitioners : List Nat
  activeClinics : List Nat
  nextId : Nat
deriving DecidableEq, Repr

/-- Modelled from the spec: configured limits — the enforced maximum lookahead
("max lookahead enforced, e.g., 90 days") and the maximum booking duration
(`InvalidDuration` when the duration "exceeds configured maximum"). -/
structure Config where
  maxLookaheadDays : Nat
  maxDurationMinutes : Nat
deriving DecidableEq, Repr

/-! ### Availability Resolver -/

/-- A slot candidate `SlotCandidate{date, start, end}` returned by
`getOpenSlots`. -/
structure Slot where
  date : Nat
  ival : Ival
deriving DecidableEq, Repr

/-- Modelled from the spec: the free intervals of one date — `windowsForDate`
minus "every existing non-cancelled booking's interval for that
practitioner+date (regardless of clinic, since a practitioner cannot be
double-booked across clinics)". -/
def freeIntervals (st : Store) (practitionerId clinicId date : Nat) :
    List Ival :=
  subtractMany (windowsForDate st.rules st.overrides practitionerId clinicId date)
    ((st.bookings.filter (fun b =>
        decide (b.physiotherapistId = practitionerId) &&
          decide (b.appointmentDate = date) &&
          decide (b.status ≠ BookingStatus.cancelled))).map bookingIval)

/-- Slots of one date: the free intervals tiled into slots of the requested
duration. -/
def slotsForDate (st : Store) (practitionerId clinicId date dur : Nat) :
    List Slot :=
  ((freeIntervals st practitionerId clinicId date).flatMap
      (fun f => tile f dur)).map (fun iv => ⟨date, iv⟩)

/-- Modelled from the spec: `getOpenSlots(practitionerId, clinicId, dateRange,
slotDurationMinutes)` of the Availability Resolver, whose executable code is
not in the repository.  The date range is `[startDate, startDate + numDays)`;
ranges longer than the configured lookahead are rejected with
`InvalidRange`. -/
def getOpenSlots (cfg : Config) (st : Store)
    (practitionerId clinicId startDate numDays slotDurationMinutes : Nat) :
    Except Err (List Slot) :=
  if cfg.maxLookaheadDays < numDays then .error .InvalidRange
  else .ok ((List.range numDays).flatMap (fun k =>
    slotsForDate st practitionerId clinicId (startDate + k)
      slotDurationMinutes))

/-! ### Booking Commit Engine -/

/-- Modelled from the spec: the argument list of `commitBooking(patientId,
practitionerId, clinicId, date, start, durationMinutes, treatmentTypeId?)`.
`durationMinutes = none` means the caller omitted the duration, so the schema
default applies. -/
structure CommitRequest where
  patientId : Nat
  physiotherapistId : Nat
  clinicId : Nat
  appointmentDate : Nat
  appointmentTime : Nat
  durationMinutes : Option Nat
  treatmentTypeId : Option Nat
deriving DecidableEq, Repr

/-- Schema line 247: `duration_minutes Int @default(60)`. -/
def defaultDurationMinutes : Nat := 60

/-- The effective duration of a commit request: the schema default when the
caller omitted it. -/
def CommitRequest.duration (r : CommitRequest) : Nat :=
  r.durationMinutes.getD defaultDurationMinutes

/-- The appointment interval a commit request asks for. -/
def reqIval (r : CommitRequest) : Ival :=
  ⟨r.appointmentTime, r.appointmentTime + r.duration⟩

/-- `InvalidDuration` guard: the duration is positive and within the
configured maximum. -/
def durationOk (cfg : Config) (r : CommitRequest) : Bool :=
  decide (0 < r.duration) && decide (r.duration ≤ cfg.maxDurationMinutes)

/-- `SlotUnavailable` guard (§7: "outside any open window"): the requested
interval is fully contained in a free availability window of the Schedule
Model. -/
def slotInWindow (st : Store) (r : CommitRequest) : Bool :=
  (windowsForDate st.rules st.overrides r.physiotherapistId r.clinicId
      r.appointmentDate).any (fun w => (reqIval r).within w)

/-- `SlotConflict` guard: "the interval overlaps any existing
pending/confirmed booking for that practitioner on that date". -/
def conflictExists (st : Store) (r : CommitRequest) : Bool :=
  st.bookings.any (fun b =>
    decide (b.physiotherapistId = r.physiotherapistId) &&
      decide (b.appointmentDate = r.appointmentDate) && b.status.claims &&
      (bookingIval b).overlaps (reqIval r))

/-- Modelled from the spec: "generate a unique human-readable booking
reference" — derived from the fresh row id. -/
def genReference (n : Nat) : String := "PHY-" ++ Nat.repr n

/-- The `pending` booking row inserted on a successful commit. -/
def mkBooking (n : Nat) (r : CommitRequest) : Booking :=
  { id := n
    bookingReference := genReference n
    patientId := r.patientId
    physiotherapistId := r.physiotherapistId
    clinicId := r.clinicId
    appointmentDate := r.appointmentDate
    appointmentTime := r.appointmentTime
    durationMinutes := r.duration
    status := .pending
    treatmentTypeId := r.treatmentTypeId
    totalAmount := none
    cancellationReason := none }

/-- Modelled from the spec: `commitBooking` of the Booking Commit Engine,
whose executable code is not in the repository.  Validation order follows
§4.3 with the §7 glosses `SlotUnavailable` = "outside any open window" and
`SlotConflict` = "race lost to another booking"; the whole check-then-insert
sequence is one atomic unit of work (§5), so concurrent calls are embedded as
sequential compositions of this function. -/
def commitBooking (cfg : Config) (st : Store) (r : CommitRequest) :
    Except Err Booking × Store :=
  if ¬ durationOk cfg r then (.error .InvalidDuration, st)
  else if ¬ st.activePractitioners.contains r.physiotherapistId then
    (.error .PractitionerInactive, st)
  else if ¬ st.activeClinics.contains r.clinicId then
    (.error .ClinicInactive, st)
  else if ¬ slotInWindow st r then (.error .SlotUnavailable, st)
  else if conflictExists st r then (.error .SlotConflict, st)
  else
    (.ok (mkBooking st.nextId r),
      { st with bookings := mkBooking st.nextId r :: st.bookings,
                nextId := st.nextId + 1 })

/-! ### Lifecycle & Cascade Coordinator -/

/-- Clock instant handed to the Lifecycle Coordinator (`confirmed →
completed` is "only permitted on or after the appointment date/time"). -/
structure Now where
  date : Nat
  minuteOfDay : Nat
deriving DecidableEq, Repr

/-- Look up a booking row by id. -/
def findBooking (st : Store) (bookingId : Nat) : Option Booking :=
  st.bookings.find? (fun b => decide (b.id = bookingId))

/-- "Requires an associated payment record that has reached `completed`". -/
def hasCompletedPayment (st : Store) (bookingId : Nat) : Bool :=
  st.payments.any (fun p =>
    decide (p.bookingId = bookingId) &&
      decide (p.status = PaymentStatus.completed))

/-- The transition table of the design document: `pending → confirmed →
completed`, with `pending → cancelled` and `confirmed → cancelled` also
legal; nothing leaves a terminal state. -/
def allowedTransition : BookingStatus → BookingStatus → Bool
  | .pending, .confirmed => true
  | .pending, .cancelled => true
  | .confirmed, .cancelled => true
  | .confirmed, .completed => true
  | _, _ => false

/-- The clock is on or after the booking's appointment date/time. -/
def onOrAfterAppointment (now : Now) (b : Booking) : Bool :=
  decide (b.appointmentDate < now.date) ||
    (decide (b.appointmentDate = now.date) &&
      decide (b.appointmentTime ≤ now.minuteOfDay))

/-- Write the target status to a booking row, storing the reason verbatim
in `cancellation_reason` when cancelling. -/
def setStatus (b : Booking) (target : BookingStatus)
    (reason : Option String) : Booking :=
  { b with
      status := target
      cancellationReason :=
        if target = .cancelled then reason else b.cancellationReason }

/-- Persist a permitted transition of booking `b`. -/
def applyTransition (st : Store) (b : Booking) (target : BookingStatus)
    (reason : Option String) : Except Err Booking × Store :=
  (.ok (setStatus b target reason),
    { st with
        bookings := st.bookings.map (fun x =>
          if x.id = b.id then setStatus x target reason else x) })

/-- Modelled from the spec: the per-status-pair dispatch of `transition`
(§4.4) once the booking row is loaded.  `pending → confirmed` needs a
completed payment (`PaymentRequired` otherwise); cancelling "requires a
reason"; `confirmed → completed` is only permitted on or after the
appointment date/time; every other pair is a disallowed transition failing
with `InvalidTransition` and leaving state unchanged. -/
def transitionCore (st : Store) (b : Booking) (target : BookingStatus)
    (reason : Option String) (now : Now) : Except Err Booking × Store :=
  match b.status, target with
  | .pending, .confirmed =>
    if hasCompletedPayment st b.id then applyTransition st b .confirmed reason
    else (.error .PaymentRequired, st)
  | .pending, .cancelled =>
    match reason with
    | none => (.error .ValidationError, st)
    | some _ => applyTransition st b .cancelled reason
  | .confirmed, .cancelled =>
    match reason with
    | none => (.error .ValidationError, st)
    | some _ => applyTransition st b .cancelled reason
  | .confirmed, .completed =>
    if onOrAfterAppointment now b then applyTransition st b .completed reason
    else (.error .InvalidTransition, st)
  | _, _ => (.error .InvalidTransition, st)

/-- Modelled from the spec: `transition(bookingId, targetStatus, actor,
reason?)` of the Lifecycle Coordinator, whose executable code is not in the
repository.  The actor identity is trusted and not consulted by the core. -/
def transition (st : Store) (bookingId : Nat) (target : BookingStatus)
    (_actor : Nat) (reason : Option String) (now : Now) :
    Except Err Booking × Store :=
  match findBooking st bookingId with
  | none => (.error .ValidationError, st)
  | some b => transitionCore st b target reason now

/-- The no-double-booking invariant of the data model: "for a given
practitioner and clinic, no two bookings with status in {pending, confirmed}
may have overlapping [start, start+duration) intervals on the same date". -/
def NoOverlap (bookings : List Booking) : Prop :=
  List.Pairwise (fun a b =>
    a.physiotherapistId = b.physiotherapistId → a.clinicId = b.clinicId →
      a.appointmentDate = b.appointmentDate → a.status.claims = true →
      b.status.claims = true →
      (bookingIval a).overlaps (bookingIval b) = false) bookings

/-- Primary-key uniqueness of `bookings.id` (`@id @default(autoincrement())`
in the schema). -/
def UniqueIds (bookings : List Booking) : Prop :=
  (bookings.map Booking.id).Nodup

instance decNoOverlap (l : List Booking) : Decidable (NoOverlap l) := by
  unfold NoOverlap
  infer_instance

instance decUniqueIds (l : List Booking) : Decidable (UniqueIds l) := by
  unfold UniqueIds
  infer_instance

/-! ### Authentication server actions (translated from `signup/page.jsx`) -/

/-- The `users` rows consulted by the auth actions (`User` model of the
schema): unique email, password hash, role, `is_active` flag. -/
structure DbUser where
  id : Nat
  email : String
  passwordHash : String
  roleId : Nat
  isActive : Bool
deriving DecidableEq, Repr

/-- The `{success, message}` result shape of the `login` server action. -/
structure ActionResult where
  success : Bool
  message : String
deriving DecidableEq, Repr

/-- The `login` server action (page.jsx lines 586–655).  `parseOk` stands for
the outcome of the `loginSchema.parse` zod-library call (its `ZodError`
branch returns "Validation failed"), `verify p h` for `bcrypt.compare(p, h)`,
and `prisma.user.findUnique({where: {email}})` becomes a lookup in the user
list. -/
def login (db : List DbUser) (verify : String → String → Bool)
    (parseOk : Bool) (email password : String) : ActionResult :=
  if ¬ parseOk then ⟨false, "Validation failed"⟩
  else
    match db.find? (fun u => u.email == email) with
    | none => ⟨false, "Invalid email or password"⟩
    | some user =>
      if ¬ user.isActive then
        ⟨false, "Account has been deactivated. Please contact support."⟩
      else if ¬ verify password user.passwordHash then
        ⟨false, "Invalid email or password"⟩
      else ⟨true, "Login successful"⟩

/-- The JWT payload `{userId, email, roleId}` signed by `createToken`. -/
structure TokenPayload where
  userId : Nat
  email : String
  roleId : Nat
deriving DecidableEq, Repr

/-- The `getCurrentUser` helper (page.jsx lines 675–698).  `cookie` is the
`auth-token` cookie value, `jwtSecret` the `JWT_SECRET` environment variable;
the source's falsiness test `!token || !process.env.JWT_SECRET` also treats
empty strings as absent.  `verifyJwt t s` models `jwt.verify(t, s)`, with
`none` when the library throws (malformed or expired token) — in the source
that throw is caught by the surrounding try/catch, which returns null.
`return user?.isActive ? user : null` keeps only active users. -/
def getCurrentUser (cookie jwtSecret : Option String)
    (verifyJwt : String → String → Option TokenPayload)
    (db : List DbUser) : Option DbUser :=
  match cookie, jwtSecret with
  | some token, some secret =>
    if token = "" ∨ secret = "" then none
    else
      match verifyJwt token secret with
      | none => none
      | some decoded =>
        match db.find? (fun u => u.id == decoded.userId) with
        | none => none
        | some user => if user.isActive then some user else none
  | _, _ => none

/-! ### Concrete fixtures used by the witness theorems -/

/-- Monday 09:00–12:00 recurring rule of practitioner 1 (the design
document's worked scenario). -/
def wRule : AvailabilityTemplate :=
  { id := 1, physiotherapistId := 1, dayOfWeek := 0, startTime := 540,
    endTime := 720, clinicId := none, isActive := true }

/-- Confirmed Monday 10:00–11:00 booking of practitioner 1 at clinic 3. -/
def wBooking : Booking :=
  { id := 10, bookingReference := "PHY-10", patientId := 2,
    physiotherapistId := 1, clinicId := 3, appointmentDate := 7,
    appointmentTime := 600, durationMinutes := 60, status := .confirmed,
    treatmentTypeId := none, totalAmount := none, cancellationReason := none }

/-- 90-day lookahead, 4-hour maximum duration. -/
def wConfig : Config := { maxLookaheadDays := 90, maxDurationMinutes := 240 }

/-- Scenario store: the recurring rule plus the 10:00 booking. -/
def wStore : Store :=
  { rules := [wRule], overrides := [], bookings := [wBooking], payments := [],
    activePractitioners := [1], activeClinics := [3], nextId := 11 }

/-- Scenario store before any booking exists. -/
def wStoreFree : Store := { wStore with bookings := [] }

/-- Commit request for Monday 09:00–10:00. -/
def wReq1 : CommitRequest :=
  { patientId := 2, physiotherapistId := 1, clinicId := 3,
    appointmentDate := 7, appointmentTime := 540, durationMinutes := some 60,
    treatmentTypeId := none }

/-- Commit request for Monday 09:30, duration omitted (schema default 60
applies, giving 09:30–10:30, which overlaps `wReq1`). -/
def wReq2 : CommitRequest :=
  { patientId := 4, physiotherapistId := 1, clinicId := 3,
    appointmentDate := 7, appointmentTime := 570, durationMinutes := none,
    treatmentTypeId := none }

/-- A cancelled (terminal) booking. -/
def wCancelled : Booking :=
  { wBooking with id := 20, status := .cancelled,
                  cancellationReason := some "patient request" }

/-- A pending 11:00 booking awaiting confirmation. -/
def wPending : Booking :=
  { wBooking with id := 21, appointmentTime := 660, status := .pending }

/-- A completed payment for the pending booking. -/
def wPayment : Payment :=
  { id := 1, bookingId := 21, paymentMethodId := 1, amount := 8000,
    status := .completed }

/-- Store for the lifecycle witnesses. -/
def wStoreLifecycle : Store :=
  { wStore with bookings := [wCancelled, wPending], payments := [wPayment] }

/-- Monday 08:00. -/
def wNow : Now := { date := 7, minuteOfDay := 480 }

/-- A deactivated account. -/
def wInactiveUser : DbUser :=
  { id := 1, email := "bob@example.ie", passwordHash := "h1", roleId := 1,
    isActive := false }

/-- An active account. -/
def wActiveUser : DbUser :=
  { id := 2, email := "ann@example.ie", passwordHash := "h2", roleId := 1,
    isActive := true }

/-- User table for the auth witnesses. -/
def wUsers : List DbUser := [wInactiveUser, wActiveUser]

/-- Stand-in for `bcrypt.compare`: a password matches when it equals the
stored hash. -/
def verifyEq : String → String → Bool := fun p h => p == h

/-! ## Theorems -/

/-! ### Interval lemmas -/

theorem mem_insertIval {a x : Ival} {l : List Ival} :
    x ∈ insertIval a l ↔ x = a ∨ x ∈ l := by
  induction l with
  | nil => simp [insertIval]
  | cons b t ih =>
    simp only [insertIval]
    split
    · simp
    · simp [ih]
      tauto

theorem mem_sortByStart {x : Ival} {l : List Ival} :
    x ∈ sortByStart l ↔ x ∈ l := by
  induction l with
  | nil => simp [sortByStart]
  | cons a t ih => simp [sortByStart, mem_insertIval, ih]

theorem sorted_insertIval {a : Ival} {l : List Ival}
    (h : List.Pairwise leStart l) : List.Pairwise leStart (insertIval a l) := by
  induction l with
  | nil => simp [insertIval]
  | cons b t ih =>
    rw [List.pairwise_cons] at h
    simp only [insertIval]
    split
    · rename_i hab
      refine List.pairwise_cons.mpr ⟨?_, List.pairwise_cons.mpr h⟩
      intro x hx
      rcases List.mem_cons.mp hx with rfl | hx
      · exact hab
      · exact Nat.le_trans hab (h.1 x hx)
    · rename_i hab
      refine List.pairwise_cons.mpr ⟨?_, ih h.2⟩
      intro x hx
      rcases mem_insertIval.mp hx with rfl | hx
      · exact Nat.le_of_not_le hab
      · exact h.1 x hx

theorem sorted_sortByStart (l : List Ival) :
    List.Pairwise leStart (sortByStart l) := by
  induction l with
  | nil => simp [sortByStart]
  | cons a t ih => exact sorted_insertIval ih

theorem mem_subtractOne_within {w b x : Ival} (hx : x ∈ subtractOne w b) :
    x.within w = true := by
  unfold subtractOne at hx
  split at hx
  · simp at hx
    subst hx
    simp [Ival.within]
  · simp only [List.mem_append] at hx
    rcases hx with hx | hx <;> split at hx <;> simp at hx <;> subst hx <;>
      simp [Ival.within] <;> omega

theorem mem_subtractOne_disjoint {w b x : Ival} (hx : x ∈ subtractOne w b) :
    x.overlaps b = false := by
  unfold subtractOne at hx
  split at hx
  · simp at hx
    subst hx
    simp [Ival.overlaps]
    omega
  · simp only [List.mem_append] at hx
    rcases hx with hx | hx <;> split at hx <;> simp at hx <;> subst hx <;>
      simp [Ival.overlaps] <;> omega

theorem mem_subtractOne_wf {w b x : Ival} (hw : w.wf = true)
    (hx : x ∈ subtractOne w b) : x.wf = true := by
  unfold subtractOne at hx
  split at hx
  · simp at hx
    subst hx
    exact hw
  · simp only [List.mem_append] at hx
    rcases hx with hx | hx <;> split at hx <;> simp at hx <;> subst hx <;>
      simp [Ival.wf] <;> omega

theorem within_trans {x w v : Ival} (h1 : x.within w = true)
    (h2 : w.within v = true) : x.within v = true := by
  simp [Ival.within] at *
  omega

theorem within_refl (x : Ival) : x.within x = true := by
  simp [Ival.within]

theorem overlaps_false_of_within {x w b : Ival} (hx : x.within w = true)
    (hw : w.overlaps b = false) : x.overlaps b = false := by
  simp [Ival.within, Ival.overlaps] at *
  omega

theorem overlaps_comm (a b : Ival) : a.overlaps b = b.overlaps a := by
  simp [Ival.overlaps, Bool.and_comm]

/-- Every output of `subtractMany` is contained in some input window. -/
theorem mem_subtractMany_within {x : Ival} :
    ∀ {ws bs : List Ival}, x ∈ subtractMany ws bs →
      ∃ w ∈ ws, x.within w = true := by
  intro ws bs
  induction bs generalizing ws with
  | nil =>
    intro hx
    exact ⟨x, hx, within_refl x⟩
  | cons b bs ih =>
    intro hx
    obtain ⟨w', hw', hxw'⟩ := ih hx
    obtain ⟨w, hw, hw'w⟩ := List.mem_flatMap.mp hw'
    exact ⟨w, hw, within_trans hxw' (mem_subtractOne_within hw'w)⟩

/-- Every output of `subtractMany` is disjoint from every subtracted
interval. -/
theorem mem_subtractMany_disjoint {x b : Ival} :
    ∀ {ws bs : List Ival}, x ∈ subtractMany ws bs → b ∈ bs →
      x.overlaps b = false := by
  intro ws bs
  induction bs generalizing ws with
  | nil => intro _ hb; simp at hb
  | cons c bs ih =>
    intro hx hb
    rcases List.mem_cons.mp hb with rfl | hb
    · rw [subtractMany] at hx
      obtain ⟨w', hw', hxw'⟩ := mem_subtractMany_within hx
      obtain ⟨w, _, hw'w⟩ := List.mem_flatMap.mp hw'
      exact overlaps_false_of_within hxw' (mem_subtractOne_disjoint hw'w)
    · exact ih hx hb

theorem mem_subtractMany_wf {x : Ival} :
    ∀ {ws bs : List Ival}, (∀ w ∈ ws, w.wf = true) →
      x ∈ subtractMany ws bs → x.wf = true := by
  intro ws bs
  induction bs generalizing ws with
  | nil => intro hws hx; exact hws x hx
  | cons b bs ih =>
    intro hws hx
    rw [subtractMany] at hx
    refine ih ?_ hx
    intro w' hw'
    obtain ⟨w, hw, hw'w⟩ := List.mem_flatMap.mp hw'
    exact mem_subtractOne_wf (hws w hw) hw'w

/-- Core lemma on the merging pass: starting from `cur` and a list sorted by
start time whose elements all start no earlier than `cur`, the merged output
is pairwise separated, well-formed, and starts no earlier than `cur`. -/
theorem mergeInto_good :
    ∀ (l : List Ival) (cur : Ival), List.Pairwise leStart l →
      (∀ x ∈ l, cur.start ≤ x.start) → cur.wf = true →
      (∀ x ∈ l, x.wf = true) →
      List.Pairwise sep (mergeInto cur l) ∧
        ∀ x ∈ mergeInto cur l, cur.start ≤ x.start ∧ x.wf = true := by
  intro l
  induction l with
  | nil =>
    intro cur _ _ hcw _
    simp [mergeInto]
    exact hcw
  | cons b rest ih =>
    intro cur hsort hge hcw hwf
    rw [List.pairwise_cons] at hsort
    simp only [mergeInto]
    split
    · rename_i hble
      apply ih
      · exact hsort.2
      · intro x hx
        exact Nat.le_trans (hge b (by simp)) (hsort.1 x hx)
      · simp only [Ival.wf, decide_eq_true_eq] at hcw ⊢
        omega
      · intro x hx
        exact hwf x (by simp [hx])
    · rename_i hble
      have hrest := ih b hsort.2 (fun x hx => hsort.1 x hx) (hwf b (by simp))
        (fun x hx => hwf x (by simp [hx]))
      constructor
      · refine List.pairwise_cons.mpr ⟨?_, hrest.1⟩
        intro x hx
        have h1 := (hrest.2 x hx).1
        simp only [sep]
        omega
      · intro x hx
        rcases List.mem_cons.mp hx with rfl | hx
        · exact ⟨Nat.le_refl _, hcw⟩
        · obtain ⟨h1, h2⟩ := hrest.2 x hx
          exact ⟨Nat.le_trans (hge b (by simp)) h1, h2⟩

/-- The merging pass on a list sorted by start time yields a pairwise
separated list of well-formed intervals. -/
theorem mergeAdj_good {l : List Ival} (hsort : List.Pairwise leStart l)
    (hwf : ∀ x ∈ l, x.wf = true) :
    List.Pairwise sep (mergeAdj l) ∧ ∀ x ∈ mergeAdj l, x.wf = true := by
  cases l with
  | nil => simp [mergeAdj]
  | cons a t =>
    rw [List.pairwise_cons] at hsort
    have h := mergeInto_good t a hsort.2 hsort.1 (hwf a (by simp))
      (fun x hx => hwf x (by simp [hx]))
    exact ⟨h.1, fun x hx => (h.2 x hx).2⟩

/-- Every slot produced by tiling a window lies inside that window. -/
theorem mem_tile_within {w s : Ival} {dur : Nat} (hs : s ∈ tile w dur) :
    s.within w = true := by
  unfold tile at hs
  obtain ⟨k, hk, hks⟩ := List.mem_map.mp hs
  rw [List.mem_range] at hk
  subst hks
  have hdur : 0 < dur := by
    rcases Nat.eq_zero_or_pos dur with h | h
    · rw [h, Nat.div_zero] at hk
      omega
    · exact h
  have h1 : (k + 1) * dur ≤ (w.stop - w.start) / dur * dur :=
    Nat.mul_le_mul_right _ hk
  have h2 : (w.stop - w.start) / dur * dur ≤ w.stop - w.start :=
    Nat.div_mul_le_self _ _
  have h3 : (k + 1) * dur ≤ w.stop - w.start := le_trans h1 h2
  have h4 : dur ≤ (k + 1) * dur := Nat.le_mul_of_pos_left dur (by omega)
  simp only [Ival.within, Bool.and_eq_true, decide_eq_true_eq]
  omega

/-- `windowsForDate` always yields pairwise separated, well-formed
intervals. -/
theorem windowsForDate_good (rules : List AvailabilityTemplate)
    (overrides : List SpecificAvailability)
    (practitionerId clinicId date : Nat) :
    List.Pairwise sep
        (windowsForDate rules overrides practitionerId clinicId date) ∧
      ∀ x ∈ windowsForDate rules overrides practitionerId clinicId date,
        x.wf = true := by
  unfold windowsForDate
  apply mergeAdj_good (sorted_sortByStart _)
  intro x hx
  rw [mem_sortByStart] at hx
  rcases List.mem_append.mp hx with hx | hx
  · exact mem_subtractMany_wf (fun w hw => (List.mem_filter.mp hw).2) hx
  · exact (List.mem_filter.mp hx).2

/-! ### Claim theorems -/

/-- C6: For every practitioner, clinic, and date, the output of
`windowsForDate` is a disjoint set of intervals ordered by ascending start
time in which no two intervals overlap or touch: every interval ends
strictly before the next one starts (so merging left nothing adjacent or
overlapping). -/
theorem C6_windowsForDate_disjoint_ordered
    (rules : List AvailabilityTemplate) (overrides : List SpecificAvailability)
    (practitionerId clinicId date : Nat) :
    List.Pairwise (fun a b => a.stop < b.start)
        (windowsForDate rules overrides practitionerId clinicId date) ∧
      List.Pairwise (fun a b => a.start < b.start)
        (windowsForDate rules overrides practitionerId clinicId date) := by
  obtain ⟨h1, h2⟩ :=
    windowsForDate_good rules overrides practitionerId clinicId date
  refine ⟨h1, ?_⟩
  refine List.Pairwise.imp_of_mem ?_ h1
  intro a b ha hb hab
  have hwa := h2 a ha
  simp only [Ival.wf, decide_eq_true_eq] at hwa
  simp only [sep] at hab
  omega

/-- C7: an `isAvailable=false` override subtracts its interval from a
recurring window — minute-precisely, the up-to-two remaining pieces cover
exactly the window minus the override — and an `isAvailable=true` override
adds an extra window; concretely, recurring 09:00–17:00 with a blocking
override 12:00–13:00 yields exactly {09:00–12:00, 13:00–17:00}, and an
added 18:00–19:00 window appears alongside the untouched recurring
window. -/
theorem C7_override_subtract_add :
    (∀ (w b : Ival) (m : Nat),
        (subtractOne w b).any (fun x => x.containsMin m) = true ↔
          (w.containsMin m = true ∧ ¬ b.containsMin m = true)) ∧
      (∀ w b : Ival, (subtractOne w b).length ≤ 2) ∧
      windowsForDate [⟨1, 1, 0, 540, 1020, none, true⟩]
          [⟨1, 1, 0, 720, 780, none, false, some "blocked"⟩] 1 3 0 =
        [⟨540, 720⟩, ⟨780, 1020⟩] ∧
      windowsForDate [⟨1, 1, 0, 540, 1020, none, true⟩]
          [⟨2, 1, 0, 1080, 1140, none, true, none⟩] 1 3 0 =
        [⟨540, 1020⟩, ⟨1080, 1140⟩] := by
  refine ⟨?_, ?_, by rfl, by rfl⟩
  · intro w b m
    unfold subtractOne
    split
    · rename_i h
      simp [Ival.containsMin]
      omega
    · rename_i h
      rw [not_or] at h
      by_cases h1 : w.start < b.start <;> by_cases h2 : b.stop < w.stop <;>
        simp [h1, h2, Ival.containsMin] <;> omega
  · intro w b
    unfold subtractOne
    split
    · simp
    · split <;> split <;> simp

/-- C8: a booking created through `commitBooking` without an explicit
duration gets the schema default `duration_minutes` of 60. -/
theorem C8_default_duration (cfg : Config) (st : Store) (r : CommitRequest)
    (b : Booking) (st' : Store) (hr : r.durationMinutes = none)
    (h : commitBooking cfg st r = (.ok b, st')) : b.durationMinutes = 60 := by
  unfold commitBooking at h
  split_ifs at h <;> simp at h
  obtain ⟨h1, h2⟩ := h
  rw [← h1]
  simp [mkBooking, CommitRequest.duration, hr, defaultDurationMinutes]

/-- Witness for C8: committing the duration-omitting fixture request yields
a 60-minute booking. -/
theorem C8_default_duration_witness :
    (mkBooking 11 wReq2).durationMinutes = 60 :=
  C8_default_duration wConfig wStoreFree wReq2 (mkBooking 11 wReq2)
    { wStoreFree with bookings := [mkBooking 11 wReq2], nextId := 12 } rfl rfl

/-- C4: a `transition` on a booking whose current status is terminal
(`completed` or `cancelled`) fails with `InvalidTransition` for every target
and leaves the persisted state unchanged; more generally, so does any
transition pair outside the lifecycle table `pending → confirmed →
completed`, `pending → cancelled`, `confirmed → cancelled`. -/
theorem C4_invalid_transition_rejected (st : Store) (bookingId : Nat)
    (target : BookingStatus) (actor : Nat) (reason : Option String)
    (now : Now) (b : Booking) (hfind : findBooking st bookingId = some b) :
    ((b.status = .completed ∨ b.status = .cancelled) →
        transition st bookingId target actor reason now =
          (.error .InvalidTransition, st)) ∧
      (allowedTransition b.status target = false →
        transition st bookingId target actor reason now =
          (.error .InvalidTransition, st)) := by
  have key : allowedTransition b.status target = false →
      transition st bookingId target actor reason now =
        (.error .InvalidTransition, st) := by
    intro hdis
    unfold transition
    rw [hfind]
    show transitionCore st b target reason now = (.error .InvalidTransition, st)
    cases hb : b.status <;> cases target <;>
      simp_all [transitionCore, allowedTransition]
  refine ⟨?_, key⟩
  intro hterm
  apply key
  rcases hterm with h | h <;> rw [h] <;> cases target <;> rfl

/-- Witness for C4: trying to confirm the cancelled fixture booking fails
with `InvalidTransition` and no state change. -/
theorem C4_invalid_transition_rejected_witness :
    transition wStoreLifecycle 20 .confirmed 0 none wNow =
      (.error .InvalidTransition, wStoreLifecycle) :=
  (C4_invalid_transition_rejected wStoreLifecycle 20 .confirmed 0 none wNow
    wCancelled rfl).1 (Or.inr rfl)

/-- C5: for a pending booking, `transition` to `confirmed` succeeds exactly
when a completed payment record for it exists — the booking is updated to
`confirmed` — and fails with `PaymentRequired`, leaving state unchanged,
when none does. -/
theorem C5_confirm_requires_payment (st : Store) (bookingId : Nat)
    (actor : Nat) (reason : Option String) (now : Now) (b : Booking)
    (hfind : findBooking st bookingId = some b) (hb : b.status = .pending) :
    ((∃ p ∈ st.payments, p.bookingId = bookingId ∧
          p.status = PaymentStatus.completed) →
        transition st bookingId .confirmed actor reason now =
          (.ok (setStatus b .confirmed reason),
            { st with bookings := st.bookings.map (fun x =>
                if x.id = b.id then setStatus x .confirmed reason else x) })) ∧
      (¬ (∃ p ∈ st.payments, p.bookingId = bookingId ∧
          p.status = PaymentStatus.completed) →
        transition st bookingId .confirmed actor reason now =
          (.error .PaymentRequired, st)) := by
  have hid : b.id = bookingId := by
    have h := List.find?_some hfind
    simpa using h
  have hpay : hasCompletedPayment st b.id = true ↔
      ∃ p ∈ st.payments, p.bookingId = bookingId ∧
        p.status = PaymentStatus.completed := by
    rw [hid]
    simp [hasCompletedPayment, List.any_eq_true]
  constructor
  · intro hp
    unfold transition
    rw [hfind]
    show transitionCore st b .confirmed reason now = _
    simp [transitionCore, hb, hpay.mpr hp, applyTransition, setStatus]
  · intro hp
    have hcp : hasCompletedPayment st b.id = false := by
      cases hcase : hasCompletedPayment st b.id
      · rfl
      · exact absurd (hpay.mp hcase) hp
    unfold transition
    rw [hfind]
    show transitionCore st b .confirmed reason now = _
    simp [transitionCore, hb, hcp]

/-- Witness for C5: confirming the pending fixture booking succeeds because
a completed payment exists. -/
theorem C5_confirm_requires_payment_witness :
    transition wStoreLifecycle 21 .confirmed 0 none wNow =
      (.ok (setStatus wPending .confirmed none),
        { wStoreLifecycle with
            bookings := wStoreLifecycle.bookings.map (fun x =>
              if x.id = wPending.id then setStatus x .confirmed none
              else x) }) :=
  (C5_confirm_requires_payment wStoreLifecycle 21 0 none wNow wPending rfl
    rfl).1 (by decide)

/-- A `commitBooking` error leaves the store unchanged. -/
theorem commitBooking_error {cfg : Config} {st : Store} {r : CommitRequest}
    {e : Err} {st' : Store}
    (h : commitBooking cfg st r = (.error e, st')) : st' = st := by
  unfold commitBooking at h
  split_ifs at h <;> rw [Prod.mk.injEq] at h <;>
    first
      | exact h.2.symm
      | exact absurd h.1 (by simp)

/-- A successful `commitBooking` returns exactly the fresh pending row,
inserts it, and passed every guard. -/
theorem commitBooking_ok {cfg : Config} {st : Store} {r : CommitRequest}
    {b : Booking} {st' : Store}
    (h : commitBooking cfg st r = (.ok b, st')) :
    b = mkBooking st.nextId r ∧
      st' = { st with bookings := mkBooking st.nextId r :: st.bookings,
                      nextId := st.nextId + 1 } ∧
      durationOk cfg r = true ∧
      st.activePractitioners.contains r.physiotherapistId = true ∧
      st.activeClinics.contains r.clinicId = true ∧
      slotInWindow st r = true ∧
      conflictExists st r = false := by
  unfold commitBooking at h
  split_ifs at h with hd hp hc hw hcf
  any_goals (rw [Prod.mk.injEq] at h; exact Except.noConfusion h.1)
  rw [Prod.mk.injEq] at h
  have hnc : conflictExists st r = false := by
    cases hcc : conflictExists st r
    · rfl
    · exact absurd hcc hcf
  exact ⟨(Except.ok.inj h.1).symm, h.2.symm, hd, hp, hc, hw, hnc⟩

/-- The second commit into the conflict-free branch fails with
`SlotConflict` when the conflict guard fires and every earlier guard
passes. -/
theorem commitBooking_conflict {cfg : Config} {st : Store} {r : CommitRequest}
    (hd : durationOk cfg r = true)
    (hp : st.activePractitioners.contains r.physiotherapistId = true)
    (hc : st.activeClinics.contains r.clinicId = true)
    (hw : slotInWindow st r = true)
    (hcf : conflictExists st r = true) :
    commitBooking cfg st r = (.error .SlotConflict, st) := by
  have hp2 : r.physiotherapistId ∈ st.activePractitioners := by simpa using hp
  have hc2 : r.clinicId ∈ st.activeClinics := by simpa using hc
  simp [commitBooking, hd, hp2, hc2, hw, hcf]

/-- `transitionCore` either leaves the store unchanged or, when the loaded
booking currently claims its slot, rewrites exactly that row's status. -/
theorem transitionCore_state (st : Store) (b : Booking)
    (target : BookingStatus) (reason : Option String) (now : Now) :
    (transitionCore st b target reason now).2 = st ∨
      (b.status.claims = true ∧
        (transitionCore st b target reason now).2 =
          { st with bookings := st.bookings.map (fun x =>
              if x.id = b.id then setStatus x target reason else x) }) := by
  cases hb : b.status <;> cases target <;> simp only [transitionCore, hb]
  case pending.confirmed =>
    split
    · exact Or.inr ⟨rfl, rfl⟩
    · exact Or.inl rfl
  case pending.cancelled =>
    rcases reason with _ | rsn
    · exact Or.inl rfl
    · exact Or.inr ⟨rfl, rfl⟩
  case confirmed.cancelled =>
    rcases reason with _ | rsn
    · exact Or.inl rfl
    · exact Or.inr ⟨rfl, rfl⟩
  case confirmed.completed =>
    split
    · exact Or.inr ⟨rfl, rfl⟩
    · exact Or.inl rfl
  all_goals first
    | exact Or.inl trivial
    | exact Or.inl rfl

/-- Updating the status of one slot-claiming row cannot break the
no-double-booking invariant: row ids are unique and intervals are
unchanged. -/
theorem noOverlap_update {l : List Booking} (hinv : NoOverlap l)
    (hids : (l.map Booking.id).Nodup) {b : Booking} (hb : b ∈ l)
    (hbc : b.status.claims = true) (target : BookingStatus)
    (reason : Option String) :
    NoOverlap (l.map (fun x =>
      if x.id = b.id then setStatus x target reason else x)) := by
  have hfields : ∀ x : Booking,
      (if x.id = b.id then setStatus x target reason else x).physiotherapistId
          = x.physiotherapistId ∧
        (if x.id = b.id then setStatus x target reason else x).clinicId
            = x.clinicId ∧
        (if x.id = b.id then setStatus x target reason else x).appointmentDate
            = x.appointmentDate ∧
        bookingIval (if x.id = b.id then setStatus x target reason else x)
            = bookingIval x := by
    intro x
    split <;> simp [setStatus, bookingIval]
  have hclaims : ∀ x ∈ l,
      (if x.id = b.id then setStatus x target reason
          else x).status.claims = true →
        x.status.claims = true := by
    intro x hx
    split
    · rename_i hxid
      intro _
      have hxb : x = b := List.inj_on_of_nodup_map hids hx hb hxid
      rw [hxb]
      exact hbc
    · exact fun h => h
  unfold NoOverlap at hinv ⊢
  rw [List.pairwise_map]
  refine List.Pairwise.imp_of_mem ?_ hinv
  intro p q hp hq hR h1 h2 h3 h4 h5
  obtain ⟨hp1, hp2, hp3, hp4⟩ := hfields p
  obtain ⟨hq1, hq2, hq3, hq4⟩ := hfields q
  rw [hp4, hq4]
  apply hR
  · rw [← hp1, ← hq1]
    exact h1
  · rw [← hp2, ← hq2]
    exact h2
  · rw [← hp3, ← hq3]
    exact h3
  · exact hclaims p hp h4
  · exact hclaims q hq h5

/-- C2: the no-double-booking invariant is preserved by every operation of
the Commit Engine and the Lifecycle Coordinator: `commitBooking` (any
request) and `transition` (any target; booking ids are unique, as the
schema's `@id` primary key guarantees). -/
theorem C2_invariant_preserved :
    (∀ (cfg : Config) (st : Store) (r : CommitRequest),
        NoOverlap st.bookings →
          NoOverlap (commitBooking cfg st r).2.bookings) ∧
      ∀ (st : Store) (bookingId : Nat) (target : BookingStatus) (actor : Nat)
          (reason : Option String) (now : Now),
        NoOverlap st.bookings → UniqueIds st.bookings →
          NoOverlap
            (transition st bookingId target actor reason now).2.bookings := by
  constructor
  · intro cfg st r hinv
    cases hres : commitBooking cfg st r with
    | mk res st' =>
      cases res with
      | error e =>
        rw [commitBooking_error hres]
        exact hinv
      | ok bnew =>
        obtain ⟨hb, hst, hd, hp, hc, hw, hcf⟩ := commitBooking_ok hres
        rw [hst]
        show NoOverlap (mkBooking st.nextId r :: st.bookings)
        have hbiv : bookingIval (mkBooking st.nextId r) = reqIval r := by
          simp [mkBooking, bookingIval, reqIval]
        unfold NoOverlap at hinv ⊢
        refine List.pairwise_cons.mpr ⟨?_, hinv⟩
        intro x hx h1 h2 h3 h4 h5
        have hx1 : x.physiotherapistId = r.physiotherapistId := by
          simpa [mkBooking] using h1.symm
        have hx3 : x.appointmentDate = r.appointmentDate := by
          simpa [mkBooking] using h3.symm
        rw [hbiv, overlaps_comm]
        cases hov : (bookingIval x).overlaps (reqIval r) with
        | false => rfl
        | true =>
          exfalso
          have hone : st.bookings.any (fun bb =>
              decide (bb.physiotherapistId = r.physiotherapistId) &&
                decide (bb.appointmentDate = r.appointmentDate) &&
                bb.status.claims &&
                (bookingIval bb).overlaps (reqIval r)) = true :=
            List.any_eq_true.mpr ⟨x, hx, by simp [hx1, hx3, h5, hov]⟩
          unfold conflictExists at hcf
          rw [hone] at hcf
          exact absurd hcf (by decide)
  · intro st bookingId target actor reason now hinv hids
    unfold transition
    cases hfind : findBooking st bookingId with
    | none => exact hinv
    | some b =>
      rcases transitionCore_state st b target reason now with h | ⟨hc, h⟩
      · rw [h]
        exact hinv
      · rw [h]
        exact noOverlap_update hinv hids (List.mem_of_find?_eq_some hfind)
          hc target reason

/-- Witness for C2: committing the 09:00 fixture request into the scenario
store (which already holds the 10:00 booking) keeps the invariant, as does
cancelling the pending fixture booking. -/
theorem C2_invariant_preserved_witness :
    NoOverlap (commitBooking wConfig wStore wReq1).2.bookings ∧
      NoOverlap (transition wStoreLifecycle 21 .cancelled 0 (some "sick")
        wNow).2.bookings :=
  ⟨C2_invariant_preserved.1 wConfig wStore wReq1 (by decide),
    C2_invariant_preserved.2 wStoreLifecycle 21 .cancelled 0 (some "sick")
      wNow (by decide) (by decide)⟩

/-- C1: two concurrent `commitBooking` calls for overlapping intervals of
the same practitioner and date — embedded, per the atomicity guarantee of
§5, as the two serialized orders of the atomic commit — resolve so that the
first call completes with a new `pending` booking and the other observes
`SlotConflict` with no state change; the statement is symmetric in the two
requests, so in either order exactly one succeeds. -/
theorem C1_commit_race (cfg : Config) (st : Store) (r1 r2 : CommitRequest)
    (b1 b2 : Booking) (st1 st2 : Store)
    (hpr : r1.physiotherapistId = r2.physiotherapistId)
    (hdt : r1.appointmentDate = r2.appointmentDate)
    (hov : (reqIval r1).overlaps (reqIval r2) = true)
    (h1 : commitBooking cfg st r1 = (.ok b1, st1))
    (h2 : commitBooking cfg st r2 = (.ok b2, st2)) :
    b1.status = .pending ∧
      commitBooking cfg st1 r2 = (.error .SlotConflict, st1) := by
  obtain ⟨hb1, hst1, hd1, hp1, hc1, hw1, hcf1⟩ := commitBooking_ok h1
  obtain ⟨hb2, hst2, hd2, hp2, hc2, hw2, hcf2⟩ := commitBooking_ok h2
  subst hb1
  refine ⟨rfl, ?_⟩
  have hp2a : st1.activePractitioners.contains r2.physiotherapistId = true := by
    rw [hst1]
    exact hp2
  have hc2a : st1.activeClinics.contains r2.clinicId = true := by
    rw [hst1]
    exact hc2
  have hw2a : slotInWindow st1 r2 = true := by
    rw [hst1]
    exact hw2
  have hcfa : conflictExists st1 r2 = true := by
    rw [hst1]
    unfold conflictExists
    refine List.any_eq_true.mpr
      ⟨mkBooking st.nextId r1, List.mem_cons_self _ _, ?_⟩
    have e1 : (mkBooking st.nextId r1).physiotherapistId =
        r2.physiotherapistId := by
      rw [← hpr]
      rfl
    have e2 : (mkBooking st.nextId r1).appointmentDate =
        r2.appointmentDate := by
      rw [← hdt]
      rfl
    have e3 : bookingIval (mkBooking st.nextId r1) = reqIval r1 := by
      simp [mkBooking, bookingIval, reqIval]
    have e4 : (mkBooking st.nextId r1).status.claims = true := rfl
    simp only [e1, e2, e3, e4, hov, Bool.and_eq_true, decide_eq_true_eq]
    exact ⟨⟨⟨trivial, trivial⟩, trivial⟩, trivial⟩
  exact commitBooking_conflict hd2 hp2a hc2a hw2a hcfa

/-- Witness for C1 at the fixture scenario: both 09:00 and 09:30 commits
would succeed on the empty Monday, and serializing them makes the second
observe `SlotConflict`. -/
theorem C1_commit_race_witness :
    (mkBooking 11 wReq1).status = .pending ∧
      commitBooking wConfig
          { wStoreFree with bookings := [mkBooking 11 wReq1], nextId := 12 }
          wReq2 =
        (.error .SlotConflict,
          { wStoreFree with bookings := [mkBooking 11 wReq1], nextId := 12 }) :=
  C1_commit_race wConfig wStoreFree wReq1 wReq2 (mkBooking 11 wReq1)
    (mkBooking 11 wReq2)
    { wStoreFree with bookings := [mkBooking 11 wReq1], nextId := 12 }
    { wStoreFree with bookings := [mkBooking 11 wReq2], nextId := 12 }
    rfl rfl (by decide) rfl rfl

/-- C3: no slot returned by `getOpenSlots` overlaps an existing pending or
confirmed booking of that practitioner on that date, regardless of the
clinic the existing booking is at. -/
theorem C3_slots_avoid_bookings (cfg : Config) (st : Store)
    (practitionerId clinicId startDate numDays dur : Nat) (slots : List Slot)
    (s : Slot) (b : Booking)
    (hres : getOpenSlots cfg st practitionerId clinicId startDate numDays dur
      = .ok slots)
    (hs : s ∈ slots) (hb : b ∈ st.bookings)
    (hbp : b.physiotherapistId = practitionerId)
    (hbd : b.appointmentDate = s.date)
    (hbs : b.status = .pending ∨ b.status = .confirmed) :
    s.ival.overlaps (bookingIval b) = false := by
  unfold getOpenSlots at hres
  split at hres
  · exact Except.noConfusion hres
  · rw [Except.ok.injEq] at hres
    subst hres
    obtain ⟨k, hk, hsk⟩ := List.mem_flatMap.mp hs
    unfold slotsForDate at hsk
    obtain ⟨iv, hiv, hseq⟩ := List.mem_map.mp hsk
    obtain ⟨f, hf, hivf⟩ := List.mem_flatMap.mp hiv
    subst hseq
    have hwithin := mem_tile_within hivf
    have hmem2 : bookingIval b ∈
        (st.bookings.filter (fun bb =>
          decide (bb.physiotherapistId = practitionerId) &&
            decide (bb.appointmentDate = startDate + k) &&
            decide (bb.status ≠ BookingStatus.cancelled))).map bookingIval := by
      refine List.mem_map.mpr ⟨b, List.mem_filter.mpr ⟨hb, ?_⟩, rfl⟩
      have hnc : b.status ≠ BookingStatus.cancelled := by
        rcases hbs with h | h <;> rw [h] <;> simp
      simp only [Bool.and_eq_true, decide_eq_true_eq]
      exact ⟨⟨hbp, hbd⟩, hnc⟩
    unfold freeIntervals at hf
    have hdisj := mem_subtractMany_disjoint hf hmem2
    exact overlaps_false_of_within hwithin hdisj

/-- Witness for C3 at the design document's worked scenario: the returned
09:00–09:30 slot does not overlap the existing 10:00–11:00 confirmed
booking. -/
theorem C3_slots_avoid_bookings_witness :
    (Slot.mk 7 ⟨540, 570⟩).ival.overlaps (bookingIval wBooking) = false :=
  C3_slots_avoid_bookings wConfig wStore 1 3 7 1 30 _ ⟨7, ⟨540, 570⟩⟩
    wBooking rfl (by decide) (by decide) rfl rfl (Or.inr rfl)

/-- C9 as stated is falsified by a deactivated account: the attempt with an
unknown email yields "Invalid email or password", while the wrong-password
attempt against the existing but deactivated account yields the deactivation
message, so the two failure causes are distinguishable. -/
theorem C9_counterexample :
    login wUsers verifyEq true "ghost@example.ie" "pw" =
        ⟨false, "Invalid email or password"⟩ ∧
      login wUsers verifyEq true "bob@example.ie" "pw" =
        ⟨false, "Account has been deactivated. Please contact support."⟩ ∧
      (login wUsers verifyEq true "ghost@example.ie" "pw").message ≠
        (login wUsers verifyEq true "bob@example.ie" "pw").message := by
  refine ⟨rfl, rfl, ?_⟩
  decide

/-- C9 amended: when the existing account is active, the unknown-email
attempt and the wrong-password attempt return failures carrying the
identical message "Invalid email or password", so the two failure causes are
indistinguishable to the caller. -/
theorem C9_login_indistinguishable (db : List DbUser)
    (verify : String → String → Bool) (e1 p1 e2 p2 : String) (u : DbUser)
    (h1 : db.find? (fun x => x.email == e1) = none)
    (h2 : db.find? (fun x => x.email == e2) = some u)
    (hact : u.isActive = true) (hpw : verify p2 u.passwordHash = false) :
    login db verify true e1 p1 = ⟨false, "Invalid email or password"⟩ ∧
      login db verify true e2 p2 = ⟨false, "Invalid email or password"⟩ := by
  constructor
  · simp [login, h1]
  · simp [login, h2, hact, hpw]

/-- Witness for the amended C9 on the fixture user table. -/
theorem C9_login_indistinguishable_witness :
    login wUsers verifyEq true "ghost@example.ie" "pw" =
        ⟨false, "Invalid email or password"⟩ ∧
      login wUsers verifyEq true "ann@example.ie" "wrong" =
        ⟨false, "Invalid email or password"⟩ :=
  C9_login_indistinguishable wUsers verifyEq "ghost@example.ie" "pw"
    "ann@example.ie" "wrong" wActiveUser rfl rfl rfl rfl

/-- C10: `getCurrentUser` returns `null` (rather than throwing) whenever the
auth token is absent, the JWT secret is unset, or token verification throws
(malformed or expired token); and it never returns a user whose `isActive`
flag is false. -/
theorem C10_getCurrentUser_safe (cookie jwtSecret : Option String)
    (verifyJwt : String → String → Option TokenPayload) (db : List DbUser) :
    ((cookie = none ∨ jwtSecret = none ∨
        ∀ t s, cookie = some t → jwtSecret = some s → verifyJwt t s = none) →
      getCurrentUser cookie jwtSecret verifyJwt db = none) ∧
      ∀ u, getCurrentUser cookie jwtSecret verifyJwt db = some u →
        u.isActive = true := by
  constructor
  · intro h
    cases cookie with
    | none => rfl
    | some t =>
      cases jwtSecret with
      | none => rfl
      | some sec =>
        rcases h with h | h | h
        · exact Option.noConfusion h
        · exact Option.noConfusion h
        · have hv := h t sec rfl rfl
          simp [getCurrentUser, hv]
  · intro u hu
    cases cookie with
    | none => exact Option.noConfusion hu
    | some t =>
      cases jwtSecret with
      | none => exact Option.noConfusion hu
      | some sec =>
        have hu2 : (if t = "" ∨ sec = "" then (none : Option DbUser)
            else match verifyJwt t sec with
              | none => none
              | some decoded =>
                match db.find? (fun x => x.id == decoded.userId) with
                | none => none
                | some user =>
                  if user.isActive = true then some user else none) =
            some u := hu
        split at hu2
        · exact Option.noConfusion hu2
        · cases hverify : verifyJwt t sec with
          | none =>
            simp only [hverify] at hu2
            exact Option.noConfusion hu2
          | some payload =>
            simp only [hverify] at hu2
            cases hfind : db.find? (fun x => x.id == payload.userId) with
            | none =>
              simp only [hfind] at hu2
              exact Option.noConfusion hu2
            | some usr =>
              simp only [hfind] at hu2
              split at hu2
              · rename_i hact
                rw [Option.some.injEq] at hu2
                subst hu2
                exact hact
              · exact Option.noConfusion hu2

/-- Witness for C10: with no auth cookie, `getCurrentUser` returns
`none`. -/
theorem C10_getCurrentUser_safe_witness :
    getCurrentUser none (some "s3cret") (fun _ _ => none) wUsers = none :=
  (C10_getCurrentUser_safe none (some "s3cret") (fun _ _ => none) wUsers).1
    (Or.inl rfl)

end Physio
